import Mathlib

/-!
Verification of the astro-lightroom-worker core against its specification.

The development shallowly embeds the two specified components:
* the OAuth token lifecycle (`src/handlers/oauth.ts`: `handleOAuthCallback`,
  `getAccessToken`), and
* the rendition resolver (`src/lib/lightroom.ts`: `getAssetPreview` with its
  existence probe, generation trigger and backoff polling loop), together with
  the `request` helper's anti-hijacking prefix stripping and the
  largest-available-size selection.

Network and store effects are made explicit: every outbound call is an oracle
value supplied by an environment record, and every key-value `put` is recorded
as an event so that intermediate store states are observable.  Machine
arithmetic is exact here: all numbers reached by the modelled code paths
(integer waits scaled by powers of 3/2) are exactly representable in IEEE
doubles, so ℤ and ℚ are faithful carriers.
-/

/-! ## JavaScript primitives used by the source -/

/-- The character test used by the model of `parseInt` for leading whitespace
(the ASCII whitespace characters recognised by JS). -/
def isSpaceJS (c : Char) : Bool :=
  c = ' ' || c = '\t' || c = '\n' || c = '\r' || c = '\x0b' || c = '\x0c'

/-- Decimal digit test. -/
def isDigitCh (c : Char) : Bool := '0' ≤ c && c ≤ '9'

/-- Value of a decimal digit. -/
def digitVal (c : Char) : ℕ := c.toNat - '0'.toNat

/-- Value of a hexadecimal digit, if any (by character code: digits 48–57,
lowercase 97–102, uppercase 65–70). -/
def hexVal (c : Char) : Option ℕ :=
  let n := c.toNat
  if 48 ≤ n ∧ n ≤ 57 then some (n - 48)
  else if 97 ≤ n ∧ n ≤ 102 then some (n - 87)
  else if 65 ≤ n ∧ n ≤ 70 then some (n - 55)
  else none

/-- Accumulate a list of decimal digits into a natural number. -/
def digitsToNat (ds : List Char) : ℕ :=
  ds.foldl (fun acc c => 10 * acc + digitVal c) 0

/-- Accumulate a list of hex digits into a natural number. -/
def hexDigitsToNat (ds : List Char) : ℕ :=
  ds.foldl (fun acc c => 16 * acc + (hexVal c).getD 0) 0

/-- Model of JavaScript `parseInt(s)` (no explicit radix): skip leading
whitespace, read an optional sign, detect a `0x`/`0X` prefix (hexadecimal),
otherwise read the longest prefix of decimal digits; `none` models `NaN`.
Values are exact integers (the source only meets small rendition sizes and
millisecond timestamps, all below 2^53). -/
def parseIntJS (s : String) : Option ℤ :=
  let cs := s.data.dropWhile isSpaceJS
  let (sgn, cs1) : ℤ × List Char :=
    match cs with
    | '-' :: r => (-1, r)
    | '+' :: r => (1, r)
    | _ => (1, cs)
  match cs1 with
  | '0' :: 'x' :: r =>
      let ds := r.takeWhile (fun c => (hexVal c).isSome)
      if ds = [] then none else some (sgn * (hexDigitsToNat ds : ℤ))
  | '0' :: 'X' :: r =>
      let ds := r.takeWhile (fun c => (hexVal c).isSome)
      if ds = [] then none else some (sgn * (hexDigitsToNat ds : ℤ))
  | _ =>
      let ds := cs1.takeWhile isDigitCh
      if ds = [] then none else some (sgn * (digitsToNat ds : ℤ))

/-- JS falsiness of a nullable string (`null`, `undefined` and `""` are falsy). -/
def jsFalsy (o : Option String) : Bool :=
  match o with
  | none => true
  | some s => s = ""

/-- JS truthiness of a nullable string. -/
def jsTruthy (o : Option String) : Bool := !(jsFalsy o)

/-! ## Token lifecycle manager (`src/handlers/oauth.ts`)

The worker's KV namespace is only touched by the OAuth code under the three
keys `access_token`, `refresh_token` and `token_expires_at`; the store is
modelled as that three-field record of nullable strings.  Writes performed by
an operation are recorded as an ordered list of `(key, value)` put events, so
that the store state after any prefix of the puts can be inspected. -/

/-- The persisted token state: the three KV entries used by `oauth.ts`. -/
structure KV where
  access_token : Option String
  refresh_token : Option String
  token_expires_at : Option String
deriving DecidableEq, Repr

/-- Body of a successful token-endpoint response (`TokenResponse` in the
source; `token_type` is never read and is omitted). -/
structure TokenResponse where
  access_token : String
  refresh_token : String
  expires_in : ℤ
deriving DecidableEq, Repr

/-- Outcome of one outbound `fetch` of the token endpoint:
a 2xx response with parsed JSON body, a non-2xx response with its error text,
or a thrown exception (network rejection / JSON parse failure). -/
inductive FetchOutcome where
  | success (tokens : TokenResponse)
  | httpError (body : String)
  | exn (msg : String)
deriving DecidableEq, Repr

/-- Environment for one `getAccessToken` execution: the outcome the refresh
`fetch` would have, and the value of the second `Date.now()` call (the one
used when storing the new expiry). -/
structure OAuthEnv where
  refreshOutcome : FetchOutcome
  now2 : ℤ
deriving DecidableEq, Repr

/-- Observable result of one `getAccessToken` execution: the returned value,
the sequence of KV puts performed, and the number of refresh calls issued. -/
structure TokenResult where
  token : Option String
  puts : List (String × String)
  refreshCalls : ℕ
deriving DecidableEq, Repr

/-- Apply one `storage.put(key, value)` to the modelled store. -/
def applyPut (s : KV) (kv : String × String) : KV :=
  if kv.1 = "access_token" then { s with access_token := some kv.2 }
  else if kv.1 = "refresh_token" then { s with refresh_token := some kv.2 }
  else if kv.1 = "token_expires_at" then { s with token_expires_at := some kv.2 }
  else s

/-- The expiry test of `getAccessToken`:
`Date.now() > parseInt(expiresAt) - 5 * 60 * 1000`.  When `parseInt` yields
`NaN` the JS comparison is false, hence no refresh. -/
def shouldRefresh (now : ℤ) (expiresAt : String) : Bool :=
  match parseIntJS expiresAt with
  | some t => now > t - 5 * 60 * 1000
  | none => false

/-- The three put events storing a freshly obtained token pair, in source
order: access token, refresh token, then stringified expiry
`Date.now() + expires_in * 1000`. -/
def tokenPuts (tok : TokenResponse) (now2 : ℤ) : List (String × String) :=
  [("access_token", tok.access_token),
   ("refresh_token", tok.refresh_token),
   ("token_expires_at", toString (now2 + tok.expires_in * 1000))]

/-- Body of `getAccessToken` *without* its outer `try`/`catch`: `.error`
marks a thrown exception (the refresh `fetch` rejecting).  No put precedes
any throw site, so an error carries the puts performed so far (`[]`) and the
number of refresh calls attempted. -/
def getAccessTokenE (store : KV) (now : ℤ) (env : OAuthEnv) :
    Except (String × List (String × String) × ℕ) TokenResult :=
  match store.access_token, store.token_expires_at, store.refresh_token with
  | some a, some ea, some r =>
      if a = "" || ea = "" || r = "" then
        .ok ⟨none, [], 0⟩
      else if shouldRefresh now ea then
        match env.refreshOutcome with
        | .exn m => .error (m, [], 1)
        | .httpError _ => .ok ⟨none, [], 1⟩
        | .success tok =>
            .ok ⟨some tok.access_token, tokenPuts tok env.now2, 1⟩
      else
        .ok ⟨some a, [], 0⟩
  | _, _, _ => .ok ⟨none, [], 0⟩

/-- `getAccessToken` as exported: the body wrapped in the source's
`try { ... } catch { return null }`. -/
def getAccessToken (store : KV) (now : ℤ) (env : OAuthEnv) : TokenResult :=
  match getAccessTokenE store now env with
  | .ok r => r
  | .error (_, p, n) => ⟨none, p, n⟩

/-- Query parameters of the OAuth callback request that the handler reads. -/
structure CallbackQuery where
  code : Option String
  state : Option String
  error : Option String
  error_description : Option String
deriving DecidableEq, Repr

/-- Environment for one `handleOAuthCallback` execution: the outcome of the
authorization-code exchange `fetch`, and the `Date.now()` used for the stored
expiry. -/
structure CallbackEnv where
  exchange : FetchOutcome
  now2 : ℤ
deriving DecidableEq, Repr

/-- Observable result of `handleOAuthCallback`: HTTP status and KV puts. -/
structure CallbackResult where
  status : ℕ
  puts : List (String × String)
deriving DecidableEq, Repr

/-- Model of `handleOAuthCallback`: provider error → 400; missing (falsy)
`code` → 400; failed exchange → 500; thrown exception → 500 via the outer
catch; success → the three token puts and 200. -/
def handleOAuthCallback (q : CallbackQuery) (env : CallbackEnv) : CallbackResult :=
  if jsTruthy q.error || jsTruthy q.error_description then ⟨400, []⟩
  else if !(jsTruthy q.code) then ⟨400, []⟩
  else
    match env.exchange with
    | .httpError _ => ⟨500, []⟩
    | .exn _ => ⟨500, []⟩
    | .success tok => ⟨200, tokenPuts tok env.now2⟩

/-! ## Rendition resolver (`src/lib/lightroom.ts`, `getAssetPreview`)

The modelled version is the one cited by the specification's polling
protocol (the draft containing the existence probe, the single generation
trigger, the `baseWaitTime * 1.5^attempt` backoff loop with `maxRetries = 8`,
and the 202 processing response with a `Retry-After` hint on exhaustion).
Outbound calls are oracles: `probes n` is the result of the n-th
`checkRenditionStatus` call of the execution (call 0 is the initial existence
check), `genOk` the `ok`-ness of the generation POST, `fetchOk` the
`ok`-ness of the final rendition GET, and `availableSizes` the body of
`getAvailableRenditionSizes` (used only for `fullsize` requests). -/

/-- Events observable in one `getAssetPreview` execution, in order. -/
inductive Ev where
  | sizesFetch
  | probe (size : String)
  | generate (size : String)
  | wait (ms : ℚ)
  | fetchRendition (size : String)
deriving DecidableEq, Repr

/-- Result of one `getAssetPreview` execution: the streamed rendition, the
JSON processing response (status and `retryAfter` in seconds), or a thrown
error. -/
inductive PreviewResult where
  | image (size : String)
  | processing (status : ℕ) (retryAfter : ℤ)
  | thrown (msg : String)
deriving DecidableEq, Repr

/-- Environment (oracle values) for one `getAssetPreview` execution. -/
structure RenditionEnv where
  hasToken : Bool
  hasApiKey : Bool
  availableSizes : List String
  probes : ℕ → Bool
  genOk : Bool
  fetchOk : Bool

/-- JS `Math.max(x, ...xs)` on exact integers. -/
def mathMax (x : ℤ) (xs : List ℤ) : ℤ := xs.foldl max x

/-- The `fullsize` size negotiation of `getAssetPreview`: keep the sizes whose
`parseInt` is a number; if any, take `Math.max(...).toString()`; otherwise
`availableSizes[availableSizes.length - 1] || '2560'` (the *last* element,
with the JS `||` falling back to `'2560'` on an absent or empty last
element). -/
def selectFullsize (availableSizes : List String) : String :=
  let numericSizes := availableSizes.filterMap parseIntJS
  match numericSizes with
  | n :: rest => toString (mathMax n rest)
  | [] =>
      match availableSizes.getLast? with
      | some s => if s = "" then "2560" else s
      | none => "2560"

/-- `baseWaitTime`: for a numeric size `n`,
`Math.max(2000, Math.min(10000, Math.floor(n / 256) * 1000))`; otherwise
5000 ms.  (`n / 256` is exact in doubles and `Math.floor` of it is `fdiv`.) -/
def baseWaitTime (size : String) : ℚ :=
  match parseIntJS size with
  | some n => ((max 2000 (min 10000 (Int.fdiv n 256 * 1000)) : ℤ) : ℚ)
  | none => 5000

/-- One outcome of the polling loop: fall through to the final rendition GET
(after a successful probe, or loop exit), or return the 202 processing
response built on the last attempt. -/
inductive PollOut where
  | proceed
  | processing (retryAfter : ℤ)
deriving DecidableEq, Repr

/-- The polling loop of `getAssetPreview`
(`for (attempt = 0; attempt < 8; attempt++)`), with explicit fuel
(`fuel + attempt = 8` at every call): wait `base * 1.5^attempt`, re-probe;
on success break; on the last attempt (`attempt === 7`) return the 202
response with `retryAfter = Math.floor(waitTime / 1000)`.
`probes` is indexed by loop attempt here. -/
def pollAux (sz : String) (base : ℚ) (probes : ℕ → Bool) :
    ℕ → ℕ → List Ev × PollOut
  | 0, _ => ([], .proceed)
  | fuel + 1, attempt =>
      let waitTime := base * (3 / 2 : ℚ) ^ attempt
      let evs := [Ev.wait waitTime, Ev.probe sz]
      if probes attempt then (evs, .proceed)
      else if attempt = 7 then (evs, .processing ⌊waitTime / 1000⌋)
      else
        let r := pollAux sz base probes fuel (attempt + 1)
        (evs ++ r.1, r.2)

/-- The expected shape of the polling-loop event trace: `k` wait/probe pairs
starting at attempt `a`, the i-th wait being `base * 1.5^(a+i)`. -/
def pollTrace (sz : String) (base : ℚ) : ℕ → ℕ → List Ev
  | _, 0 => []
  | a, k + 1 =>
      Ev.wait (base * (3 / 2 : ℚ) ^ a) :: Ev.probe sz :: pollTrace sz base (a + 1) k

/-- The final rendition GET of `getAssetPreview`: emit the fetch event; an
`ok` response is returned, otherwise the error is thrown. -/
def finalFetch (sz : String) (env : RenditionEnv) (evs : List Ev) :
    PreviewResult × List Ev :=
  let evs1 := evs ++ [Ev.fetchRendition sz]
  if env.fetchOk then (.image sz, evs1) else (.thrown "Failed to get rendition", evs1)

/-- Model of `getAssetPreview(catalogId, assetId, size)` (the polling draft):
guard on credentials; resolve `fullsize` through the size negotiation; one
existence probe; if absent, one generation POST (a non-ok response throws),
then the backoff polling loop; finally fetch the rendition.  The second
component is the ordered trace of outbound effects. -/
def getAssetPreview (size : String) (env : RenditionEnv) :
    PreviewResult × List Ev :=
  if !(env.hasToken && env.hasApiKey) then
    (.thrown "Access token and API key are required", [])
  else
    let (pre, requestedSize) :=
      if size = "fullsize" then ([Ev.sizesFetch], selectFullsize env.availableSizes)
      else ([], size)
    let evs1 := pre ++ [Ev.probe requestedSize]
    if env.probes 0 then
      finalFetch requestedSize env evs1
    else
      let evs2 := evs1 ++ [Ev.generate requestedSize]
      if !env.genOk then
        (.thrown "Failed to generate rendition", evs2)
      else
        let r := pollAux requestedSize (baseWaitTime requestedSize)
          (fun i => env.probes (i + 1)) 8 0
        match r.2 with
        | .processing retryAfter => (.processing 202 retryAfter, evs2 ++ r.1)
        | .proceed => finalFetch requestedSize env (evs2 ++ r.1)

/-- The wait interval of poll attempt `i` for a given requested size. -/
def waitSeq (size : String) (i : ℕ) : ℚ := baseWaitTime size * (3 / 2 : ℚ) ^ i

/-! ## Claims about the token lifecycle -/

/-- C3.  For every stored token record (all three fields present and
non-empty) whose `expires_at` parses to a time more than 5 minutes after the
current time, `getAccessToken` returns the stored access token, performs no
KV write, and makes no network call. -/
theorem c3_fresh_token_no_refresh (store : KV) (now t : ℤ) (env : OAuthEnv)
    (a ea r : String)
    (hA : store.access_token = some a) (hEa : store.token_expires_at = some ea)
    (hR : store.refresh_token = some r)
    (ha : a ≠ "") (hea : ea ≠ "") (hr : r ≠ "")
    (ht : parseIntJS ea = some t)
    (hfresh : now + 5 * 60 * 1000 < t) :
    getAccessToken store now env = ⟨some a, [], 0⟩ := by
  have hsr : shouldRefresh now ea = false := by
    simp only [shouldRefresh, ht, decide_eq_false_iff_not, not_lt]
    omega
  simp [getAccessToken, getAccessTokenE, hA, hEa, hR, ha, hea, hr, hsr]

/-- C3 witness: a record expiring at t = 1000000 with `now = 0`. -/
theorem c3_fresh_token_no_refresh_witness :
    getAccessToken ⟨some "A", some "R", some "1000000"⟩ 0
      ⟨.httpError "boom", 0⟩ = ⟨some "A", [], 0⟩ :=
  c3_fresh_token_no_refresh ⟨some "A", some "R", some "1000000"⟩ 0 1000000
    ⟨.httpError "boom", 0⟩ "A" "1000000" "R" rfl rfl rfl
    (by decide) (by decide) (by decide) (by decide) (by decide)

/-- C4 counterexample.  A record whose `expires_at` is *exactly* 5 minutes
after the current time (`expires_at - now = 300000 ms`, i.e. within 5 minutes
in the inclusive sense) does **not** trigger a refresh: the code's test is
the strict `Date.now() > parseInt(expiresAt) - 5*60*1000`, so the stored
token is returned with zero refresh calls, contradicting the claimed
"exactly one refresh exchange". -/
theorem c4_boundary_counterexample :
    parseIntJS "300000" = some 300000 ∧
    (300000 : ℤ) - 0 ≤ 5 * 60 * 1000 ∧
    getAccessToken ⟨some "A", some "R", some "300000"⟩ 0 ⟨.httpError "boom", 0⟩
      = ⟨some "A", [], 0⟩ := by
  refine ⟨by decide, by decide, by decide⟩

/-- C4 as amended.  For every stored token record whose `expires_at` is
*strictly* less than 5 minutes after the current time (including the past),
`getAccessToken` performs exactly one refresh exchange before returning, and
on a successful refresh it stores the new access token, new refresh token and
new expiry and returns the new access token. -/
theorem c4_strict_refresh (store : KV) (now t : ℤ) (env : OAuthEnv)
    (a ea r : String)
    (hA : store.access_token = some a) (hEa : store.token_expires_at = some ea)
    (hR : store.refresh_token = some r)
    (ha : a ≠ "") (hea : ea ≠ "") (hr : r ≠ "")
    (ht : parseIntJS ea = some t)
    (hstale : t - now < 5 * 60 * 1000) :
    (getAccessToken store now env).refreshCalls = 1 ∧
    ∀ tok, env.refreshOutcome = .success tok →
      getAccessToken store now env = ⟨some tok.access_token, tokenPuts tok env.now2, 1⟩ := by
  have hsr : shouldRefresh now ea = true := by
    simp only [shouldRefresh, ht, decide_eq_true_eq]
    omega
  constructor
  · rcases hout : env.refreshOutcome with tok | b | m <;>
      simp [getAccessToken, getAccessTokenE, hA, hEa, hR, ha, hea, hr, hsr, hout]
  · intro tok hout
    simp [getAccessToken, getAccessTokenE, hA, hEa, hR, ha, hea, hr, hsr, hout]

/-- C4 witness for the amended claim: a record 100 ms from expiry at
`now = 0`, with a successful refresh. -/
theorem c4_strict_refresh_witness :
    (getAccessToken ⟨some "A", some "R", some "100"⟩ 0
        ⟨.success ⟨"nA", "nR", 3600⟩, 5⟩).refreshCalls = 1 ∧
    ∀ tok, (OAuthEnv.mk (.success ⟨"nA", "nR", 3600⟩) 5).refreshOutcome = .success tok →
      getAccessToken ⟨some "A", some "R", some "100"⟩ 0
          ⟨.success ⟨"nA", "nR", 3600⟩, 5⟩
        = ⟨some tok.access_token, tokenPuts tok 5, 1⟩ :=
  c4_strict_refresh ⟨some "A", some "R", some "100"⟩ 0 100
    ⟨.success ⟨"nA", "nR", 3600⟩, 5⟩ "A" "100" "R" rfl rfl rfl
    (by decide) (by decide) (by decide) (by decide) (by decide)

/-- C5.  Whenever the refresh path is taken and the refresh call fails —
either a non-2xx response or a thrown exception — `getAccessToken` returns
`null` and performs no KV write; a thrown exception is visible as an error of
the unguarded body `getAccessTokenE` but is converted to `null` by the
`try`/`catch`, so the failure is never propagated. -/
theorem c5_refresh_failure_null (store : KV) (now : ℤ) (env : OAuthEnv)
    (a ea r : String)
    (hA : store.access_token = some a) (hEa : store.token_expires_at = some ea)
    (hR : store.refresh_token = some r)
    (ha : a ≠ "") (hea : ea ≠ "") (hr : r ≠ "")
    (hsr : shouldRefresh now ea = true)
    (hfail : ∀ tok, env.refreshOutcome ≠ .success tok) :
    (getAccessToken store now env).token = none ∧
    (getAccessToken store now env).puts = [] ∧
    ∀ m, env.refreshOutcome = .exn m →
      getAccessTokenE store now env = .error (m, [], 1) := by
  rcases hout : env.refreshOutcome with tok | b | m
  · exact absurd hout (hfail tok)
  · refine ⟨?_, ?_, ?_⟩ <;>
      simp [getAccessToken, getAccessTokenE, hA, hEa, hR, ha, hea, hr, hsr, hout]
  · refine ⟨?_, ?_, ?_⟩ <;>
      simp [getAccessToken, getAccessTokenE, hA, hEa, hR, ha, hea, hr, hsr, hout]

/-- C5 witness: an expired record with a non-2xx refresh response. -/
theorem c5_refresh_failure_null_witness :
    (getAccessToken ⟨some "A", some "R", some "100"⟩ 0
        ⟨.httpError "boom", 5⟩).token = none ∧
    (getAccessToken ⟨some "A", some "R", some "100"⟩ 0
        ⟨.httpError "boom", 5⟩).puts = [] ∧
    ∀ m, (OAuthEnv.mk (.httpError "boom") 5).refreshOutcome = .exn m →
      getAccessTokenE ⟨some "A", some "R", some "100"⟩ 0 ⟨.httpError "boom", 5⟩
        = .error (m, [], 1) :=
  c5_refresh_failure_null ⟨some "A", some "R", some "100"⟩ 0
    ⟨.httpError "boom", 5⟩ "A" "100" "R" rfl rfl rfl
    (by decide) (by decide) (by decide) (by decide)
    (by intro tok h; exact FetchOutcome.noConfusion h)

/-- C6 counterexample.  One successful refresh at `now = 1` on the record
`(oldA, oldR, "0")`: the mutation is **three** separate puts (not a single
atomic write), and the store state reached after the first put alone pairs
the *new* access token with the *old* expiry — a reachable partially-written
state, contradicting the claim. -/
theorem c6_partial_write_counterexample :
    (getAccessToken ⟨some "oldA", some "oldR", some "0"⟩ 1
        ⟨.success ⟨"newA", "newR", 60⟩, 1000⟩).puts.length = 3 ∧
    (getAccessToken ⟨some "oldA", some "oldR", some "0"⟩ 1
        ⟨.success ⟨"newA", "newR", 60⟩, 1000⟩).puts.length ≠ 1 ∧
    ((getAccessToken ⟨some "oldA", some "oldR", some "0"⟩ 1
        ⟨.success ⟨"newA", "newR", 60⟩, 1000⟩).puts.take 1).foldl applyPut
        ⟨some "oldA", some "oldR", some "0"⟩
      = ⟨some "newA", some "oldR", some "0"⟩ := by
  refine ⟨by decide, by decide, by decide⟩

/-- C6 as amended.  Both mutation sites (the refresh inside `getAccessToken`
and the success path of `handleOAuthCallback`) replace access token, refresh
token and expiry via the same three sequential puts, in that order; after the
full sequence the store holds the three new values together, but the write is
not atomic: intermediate states (such as new access token with old expiry,
exhibited in the counterexample) occur between the puts. -/
theorem c6_sequential_full_replacement :
    (∀ (store : KV) (now : ℤ) (env : OAuthEnv) (a ea r : String) (tok : TokenResponse),
      store.access_token = some a → store.token_expires_at = some ea →
      store.refresh_token = some r → a ≠ "" → ea ≠ "" → r ≠ "" →
      shouldRefresh now ea = true → env.refreshOutcome = .success tok →
      (getAccessToken store now env).puts = tokenPuts tok env.now2 ∧
      (getAccessToken store now env).puts.foldl applyPut store
        = ⟨some tok.access_token, some tok.refresh_token,
           some (toString (env.now2 + tok.expires_in * 1000))⟩) ∧
    (∀ (q : CallbackQuery) (env : CallbackEnv) (tok : TokenResponse) (store : KV),
      jsTruthy q.error = false → jsTruthy q.error_description = false →
      jsTruthy q.code = true → env.exchange = .success tok →
      (handleOAuthCallback q env).puts = tokenPuts tok env.now2 ∧
      (handleOAuthCallback q env).puts.foldl applyPut store
        = ⟨some tok.access_token, some tok.refresh_token,
           some (toString (env.now2 + tok.expires_in * 1000))⟩) := by
  constructor
  · intro store now env a ea r tok hA hEa hR ha hea hr hsr hout
    have hres : getAccessToken store now env
        = ⟨some tok.access_token, tokenPuts tok env.now2, 1⟩ := by
      simp [getAccessToken, getAccessTokenE, hA, hEa, hR, ha, hea, hr, hsr, hout]
    rcases store with ⟨x, y, z⟩
    refine ⟨by rw [hres], ?_⟩
    rw [hres]
    simp [tokenPuts, applyPut]
  · intro q env tok store he hed hc hout
    have hres : handleOAuthCallback q env = ⟨200, tokenPuts tok env.now2⟩ := by
      simp [handleOAuthCallback, he, hed, hc, hout]
    rcases store with ⟨x, y, z⟩
    refine ⟨by rw [hres], ?_⟩
    rw [hres]
    simp [tokenPuts, applyPut]

/-- C6 witness for the amended claim: both conjuncts at concrete inputs. -/
theorem c6_sequential_full_replacement_witness :
    ((getAccessToken ⟨some "oldA", some "oldR", some "0"⟩ 1
        ⟨.success ⟨"newA", "newR", 60⟩, 1000⟩).puts
      = tokenPuts ⟨"newA", "newR", 60⟩ 1000 ∧
     (getAccessToken ⟨some "oldA", some "oldR", some "0"⟩ 1
        ⟨.success ⟨"newA", "newR", 60⟩, 1000⟩).puts.foldl applyPut
        ⟨some "oldA", some "oldR", some "0"⟩
      = ⟨some "newA", some "newR", some (toString ((1000 : ℤ) + 60 * 1000))⟩) ∧
    ((handleOAuthCallback ⟨some "c", none, none, none⟩
        ⟨.success ⟨"newA", "newR", 60⟩, 1000⟩).puts
      = tokenPuts ⟨"newA", "newR", 60⟩ 1000 ∧
     (handleOAuthCallback ⟨some "c", none, none, none⟩
        ⟨.success ⟨"newA", "newR", 60⟩, 1000⟩).puts.foldl applyPut
        ⟨none, none, none⟩
      = ⟨some "newA", some "newR", some (toString ((1000 : ℤ) + 60 * 1000))⟩) :=
  ⟨c6_sequential_full_replacement.1 ⟨some "oldA", some "oldR", some "0"⟩ 1
      ⟨.success ⟨"newA", "newR", 60⟩, 1000⟩ "oldA" "0" "oldR" ⟨"newA", "newR", 60⟩
      rfl rfl rfl (by decide) (by decide) (by decide) (by decide) rfl,
   c6_sequential_full_replacement.2 ⟨some "c", none, none, none⟩
      ⟨.success ⟨"newA", "newR", 60⟩, 1000⟩ ⟨"newA", "newR", 60⟩ ⟨none, none, none⟩
      (by decide) (by decide) (by decide) rfl⟩

/-- C9.  An OAuth callback with no `code` parameter (and no provider error)
yields a 400 response and performs no KV write: the token store is unchanged. -/
theorem c9_missing_code_no_write (q : CallbackQuery) (env : CallbackEnv)
    (hc : q.code = none) (he : q.error = none) (hed : q.error_description = none) :
    handleOAuthCallback q env = ⟨400, []⟩ ∧
    ∀ store : KV, (handleOAuthCallback q env).puts.foldl applyPut store = store := by
  have h1 : handleOAuthCallback q env = ⟨400, []⟩ := by
    simp [handleOAuthCallback, jsTruthy, jsFalsy, hc, he, hed]
  exact ⟨h1, fun store => by rw [h1]; rfl⟩

/-- C9 witness: the empty callback query. -/
theorem c9_missing_code_no_write_witness :
    handleOAuthCallback ⟨none, none, none, none⟩ ⟨.httpError "x", 0⟩ = ⟨400, []⟩ ∧
    ∀ store : KV,
      (handleOAuthCallback ⟨none, none, none, none⟩ ⟨.httpError "x", 0⟩).puts.foldl
        applyPut store = store :=
  c9_missing_code_no_write ⟨none, none, none, none⟩ ⟨.httpError "x", 0⟩ rfl rfl rfl

/-- C10.  If any of the three persisted fields is absent, `getAccessToken`
returns `null` with no KV write and no network call (in particular a present,
unexpired access token is not returned when the refresh token is missing);
and at its interface the function is total: every execution either completes
the body normally or returns `null` through the `catch`, never propagating an
exception. -/
theorem c10_missing_fields_null_total (store : KV) (now : ℤ) (env : OAuthEnv)
    (h : store.access_token = none ∨ store.refresh_token = none ∨
      store.token_expires_at = none) :
    getAccessToken store now env = ⟨none, [], 0⟩ ∧
    ∀ (s : KV) (n : ℤ) (e : OAuthEnv),
      getAccessTokenE s n e = .ok (getAccessToken s n e) ∨
      (getAccessToken s n e).token = none := by
  constructor
  · rcases store with ⟨x, y, z⟩
    rcases h with h | h | h <;> subst h
    · rcases y with _ | y <;> rcases z with _ | z <;>
        simp [getAccessToken, getAccessTokenE]
    · rcases x with _ | x <;> rcases z with _ | z <;>
        simp [getAccessToken, getAccessTokenE]
    · rcases x with _ | x <;> rcases y with _ | y <;>
        simp [getAccessToken, getAccessTokenE]
  · intro s n e
    rcases hE : getAccessTokenE s n e with ⟨m, p, k⟩ | r
    · right
      simp [getAccessToken, hE]
    · left
      simp [getAccessToken, hE]

/-- C10 witness: an unexpired access token is not returned when the refresh
token is absent. -/
theorem c10_missing_fields_null_total_witness :
    getAccessToken ⟨some "A", none, some "9999999999"⟩ 0 ⟨.httpError "x", 0⟩
      = ⟨none, [], 0⟩ ∧
    ∀ (s : KV) (n : ℤ) (e : OAuthEnv),
      getAccessTokenE s n e = .ok (getAccessToken s n e) ∨
      (getAccessToken s n e).token = none :=
  c10_missing_fields_null_total ⟨some "A", none, some "9999999999"⟩ 0
    ⟨.httpError "x", 0⟩ (Or.inr (Or.inl rfl))

/-! ## Claims about the rendition resolver's polling protocol -/

/-- Every requested size has a base wait of at least 2000 ms. -/
theorem baseWaitTime_ge (size : String) : (2000 : ℚ) ≤ baseWaitTime size := by
  unfold baseWaitTime
  rcases parseIntJS size with _ | n
  · norm_num
  · show (2000 : ℚ) ≤ ((max 2000 (min 10000 (Int.fdiv n 256 * 1000)) : ℤ) : ℚ)
    exact_mod_cast le_max_left (2000 : ℤ) (min 10000 (Int.fdiv n 256 * 1000))

/-- The event trace of `finalFetch` is the incoming trace plus the rendition
GET, whatever the response. -/
theorem finalFetch_trace (sz : String) (env : RenditionEnv) (evs : List Ev) :
    (finalFetch sz env evs).2 = evs ++ [Ev.fetchRendition sz] := by
  rcases hf : env.fetchOk <;> simp [finalFetch, hf]

/-- The waits occurring in a poll trace are exactly `base * 1.5^(a+i)` for
`i < k`. -/
theorem wait_mem_pollTrace (sz : String) (base : ℚ) :
    ∀ (k a : ℕ) (w : ℚ),
      Ev.wait w ∈ pollTrace sz base a k ↔ ∃ i, i < k ∧ w = base * (3 / 2 : ℚ) ^ (a + i) := by
  intro k
  induction k with
  | zero => intro a w; simp [pollTrace]
  | succ k ih =>
    intro a w
    simp only [pollTrace, List.mem_cons]
    constructor
    · rintro (hw | hw | hw)
      · exact ⟨0, by omega, by simpa using hw⟩
      · exact absurd hw (by simp)
      · obtain ⟨i, hi, hwi⟩ := (ih (a + 1) w).mp hw
        exact ⟨i + 1, by omega, by rw [hwi]; ring_nf⟩
    · rintro ⟨i, hi, hwi⟩
      rcases i with _ | j
      · left; simpa using hwi
      · right; right
        refine (ih (a + 1) w).mpr ⟨j, by omega, ?_⟩
        rw [hwi]; ring_nf

/-- Characterization of the polling loop: starting at attempt `a` with
`fuel + a = 8`, some `1 ≤ k` wait/probe rounds run; all probed attempts but
the last fail; the loop either stops on a successful probe and proceeds to
the rendition GET, or exhausts the 8 attempts with every probe failing and
returns the processing outcome whose `retryAfter` is derived from the last
wait. -/
theorem pollAux_spec (sz : String) (base : ℚ) (probes : ℕ → Bool) :
    ∀ fuel a, fuel + a = 8 → 1 ≤ fuel →
    ∃ k, 1 ≤ k ∧ a + k ≤ 8 ∧
      (pollAux sz base probes fuel a).1 = pollTrace sz base a k ∧
      (∀ i, i < k - 1 → probes (a + i) = false) ∧
      ((probes (a + k - 1) = true ∧ (pollAux sz base probes fuel a).2 = .proceed) ∨
       (a + k = 8 ∧ (∀ i, i < k → probes (a + i) = false) ∧
        (pollAux sz base probes fuel a).2
          = .processing ⌊base * (3 / 2 : ℚ) ^ 7 / 1000⌋)) := by
  intro fuel
  induction fuel with
  | zero => intro a h h1; omega
  | succ f ih =>
    intro a hfa h1
    by_cases hp : probes a = true
    · refine ⟨1, le_refl 1, by omega, ?_, ?_, ?_⟩
      · simp [pollAux, pollTrace, hp]
      · intro i hi; omega
      · left
        exact ⟨by simpa using hp, by simp [pollAux, hp]⟩
    · have hp' : probes a = false := by simpa using hp
      by_cases ha7 : a = 7
      · subst ha7
        refine ⟨1, le_refl 1, by omega, ?_, ?_, ?_⟩
        · simp [pollAux, pollTrace, hp']
        · intro i hi; omega
        · right
          refine ⟨by omega, ?_, by simp [pollAux, hp']⟩
          intro i hi
          have hi0 : i = 0 := by omega
          subst hi0; simpa using hp'
      · have hf1 : 1 ≤ f := by omega
        have hfa1 : f + (a + 1) = 8 := by omega
        obtain ⟨k, hk1, hk8, htr, hfails, hlast⟩ := ih (a + 1) hfa1 hf1
        refine ⟨k + 1, by omega, by omega, ?_, ?_, ?_⟩
        · simp only [pollAux, hp', Bool.false_eq_true, if_false, ha7, ite_false]
          rw [htr]
          simp [pollTrace]
        · intro i hi
          rcases i with _ | j
          · simpa using hp'
          · have hj : j < k - 1 := by omega
            have := hfails j hj
            simpa [Nat.add_assoc, Nat.add_comm 1 j] using this
        · have hout : (pollAux sz base probes (f + 1) a).2
              = (pollAux sz base probes f (a + 1)).2 := by
            simp [pollAux, hp', ha7]
          rcases hlast with ⟨hpt, ho⟩ | ⟨h8, hall, ho⟩
          · left
            constructor
            · have hx : a + 1 + k - 1 = a + (k + 1) - 1 := by omega
              rwa [hx] at hpt
            · rw [hout]; exact ho
          · right
            refine ⟨by omega, ?_, by rw [hout]; exact ho⟩
            intro i hi
            rcases i with _ | j
            · simpa using hp'
            · have hj : j < k := by omega
              have := hall j hj
              simpa [Nat.add_assoc, Nat.add_comm 1 j] using this

/-- When every probe of the loop fails, the loop exhausts its 8 attempts and
returns the processing outcome. -/
theorem pollAux_all_false (sz : String) (base : ℚ) (probes : ℕ → Bool)
    (h : ∀ i, i < 8 → probes i = false) :
    (pollAux sz base probes 8 0).2 = .processing ⌊base * (3 / 2 : ℚ) ^ 7 / 1000⌋ := by
  obtain ⟨k, hk1, hk8, _, _, hlast⟩ := pollAux_spec sz base probes 8 0 rfl (by omega)
  rcases hlast with ⟨hpt, _⟩ | ⟨_, _, ho⟩
  · have := h (0 + k - 1) (by omega)
    rw [this] at hpt
    exact absurd hpt (by simp)
  · exact ho

/-- The `retryAfter` computed on the exhausted last attempt is positive. -/
theorem retryAfter_pos (size : String) :
    0 < ⌊baseWaitTime size * (3 / 2 : ℚ) ^ 7 / 1000⌋ := by
  have hb := baseWaitTime_ge size
  have h1 : (1 : ℚ) ≤ baseWaitTime size * (3 / 2 : ℚ) ^ 7 / 1000 := by
    have hpow : ((3 : ℚ) / 2) ^ 7 = 2187 / 128 := by norm_num
    rw [hpow]
    linarith
  have := Int.le_floor.mpr (by exact_mod_cast h1 : ((1 : ℤ) : ℚ) ≤ _)
  omega

/-- The waits of the polling loop grow strictly. -/
theorem waitSeq_strictMono (size : String) : StrictMono (waitSeq size) := by
  intro i j hij
  unfold waitSeq
  have hb : (0 : ℚ) < baseWaitTime size := lt_of_lt_of_le (by norm_num) (baseWaitTime_ge size)
  have hpow : ((3 : ℚ) / 2) ^ i < ((3 : ℚ) / 2) ^ j := by
    apply pow_lt_pow_right₀ (by norm_num) hij
  exact mul_lt_mul_of_pos_left hpow hb

/-- The size actually requested and polled by `getAssetPreview`: `fullsize`
resolves through the size negotiation over the available sizes, every other
size is requested as-is. -/
def requestedSizeOf (size : String) (env : RenditionEnv) : String :=
  if size = "fullsize" then selectFullsize env.availableSizes else size

/-- The trace prefix preceding the existence probe: a `fullsize` request
first lists the available rendition sizes; no other size causes a call
before the probe. -/
def preTraceOf (size : String) : List Ev :=
  if size = "fullsize" then [Ev.sizesFetch] else []

/-- On the not-initially-existing path with a successful trigger,
`getAssetPreview` is the generation/polling pipeline applied to the
negotiated size, for every requested size. -/
theorem getAssetPreview_eq (size : String) (env : RenditionEnv)
    (ht : env.hasToken = true) (hk : env.hasApiKey = true)
    (h0 : env.probes 0 = false) (hg : env.genOk = true) :
    getAssetPreview size env
      = match pollAux (requestedSizeOf size env)
            (baseWaitTime (requestedSizeOf size env))
            (fun i => env.probes (i + 1)) 8 0 with
        | (pevs, .processing rA) =>
            (.processing 202 rA,
              preTraceOf size ++ Ev.probe (requestedSizeOf size env)
                :: Ev.generate (requestedSizeOf size env) :: pevs)
        | (pevs, .proceed) =>
            finalFetch (requestedSizeOf size env) env
              (preTraceOf size ++ Ev.probe (requestedSizeOf size env)
                :: Ev.generate (requestedSizeOf size env) :: pevs) := by
  rcases eq_or_ne size "fullsize" with hsz | hsz
  · subst hsz
    simp only [requestedSizeOf, preTraceOf, eq_self_iff_true, if_true]
    rcases hpoll : pollAux (selectFullsize env.availableSizes)
        (baseWaitTime (selectFullsize env.availableSizes))
        (fun i => env.probes (i + 1)) 8 0 with ⟨pevs, out⟩
    rcases out with _ | rA <;>
      simp [getAssetPreview, ht, hk, h0, hg, hpoll]
  · simp only [requestedSizeOf, preTraceOf, if_neg hsz]
    rcases hpoll : pollAux size (baseWaitTime size)
        (fun i => env.probes (i + 1)) 8 0 with ⟨pevs, out⟩
    rcases out with _ | rA <;>
      simp [getAssetPreview, ht, hk, hsz, h0, hg, hpoll]

/-- C1.  For every rendition request for a generated size — `"2560"` and the
negotiated `"fullsize"` alike, the latter merely preceded by the
size-listing fetch — whose rendition does not initially exist and whose
generation trigger succeeds, the effect trace of `getAssetPreview` is:
exactly one existence probe, then exactly one generation POST, then `k ≤ 8`
wait/probe rounds whose wait intervals are `base * 1.5^i * jitter_i` with a
jitter factor inside the 1.0–1.2 bounds (here constantly 1) and strictly
increase, stopping at the first successful probe (followed by the rendition
GET) or after 8 attempts. -/
theorem c1_polling_protocol (size : String) (env : RenditionEnv)
    (ht : env.hasToken = true) (hk : env.hasApiKey = true)
    (h0 : env.probes 0 = false) (hg : env.genOk = true) :
    ∃ k, 1 ≤ k ∧ k ≤ 8 ∧
      (getAssetPreview size env).2
        = preTraceOf size
            ++ Ev.probe (requestedSizeOf size env)
            :: Ev.generate (requestedSizeOf size env)
            :: (pollTrace (requestedSizeOf size env)
                  (baseWaitTime (requestedSizeOf size env)) 0 k
                ++ if env.probes k then
                    [Ev.fetchRendition (requestedSizeOf size env)] else []) ∧
      (∀ w : ℚ, Ev.wait w ∈ pollTrace (requestedSizeOf size env)
            (baseWaitTime (requestedSizeOf size env)) 0 k ↔
        ∃ i, i < k ∧ w = waitSeq (requestedSizeOf size env) i) ∧
      (∀ i, i + 1 < k → env.probes (i + 1) = false) ∧
      (env.probes k = true ∨ (k = 8 ∧ ∀ i, 1 ≤ i → i ≤ 8 → env.probes i = false)) ∧
      StrictMono (waitSeq (requestedSizeOf size env)) ∧
      ∃ jit : ℕ → ℚ, (∀ i, 1 ≤ jit i ∧ jit i ≤ 12 / 10) ∧
        ∀ i, waitSeq (requestedSizeOf size env) i
          = baseWaitTime (requestedSizeOf size env) * (3 / 2 : ℚ) ^ i * jit i := by
  have hGAP := getAssetPreview_eq size env ht hk h0 hg
  obtain ⟨k, hk1, hk8, htr, hfails, hlast⟩ :=
    pollAux_spec (requestedSizeOf size env) (baseWaitTime (requestedSizeOf size env))
      (fun i => env.probes (i + 1)) 8 0 rfl (by omega)
  refine ⟨k, hk1, by omega, ?_, ?_, ?_, ?_, waitSeq_strictMono _, ?_⟩
  · rcases hlast with ⟨hpt, ho⟩ | ⟨h8, hall, ho⟩
    · have hek : env.probes k = true := by
        have h := hpt
        simp only [] at h
        rwa [(by omega : 0 + k - 1 + 1 = k)] at h
      have hpair : pollAux (requestedSizeOf size env)
          (baseWaitTime (requestedSizeOf size env)) (fun i => env.probes (i + 1)) 8 0
          = (pollTrace (requestedSizeOf size env)
              (baseWaitTime (requestedSizeOf size env)) 0 k, .proceed) :=
        Prod.ext_iff.mpr ⟨htr, ho⟩
      rw [hpair] at hGAP
      rw [hGAP]
      simp [finalFetch_trace, hek]
    · have hek : env.probes k = false := by
        have h := hall 7 (by omega)
        simp only [] at h
        have hk8' : k = 8 := by omega
        rw [hk8']
        simpa using h
      have hpair : pollAux (requestedSizeOf size env)
          (baseWaitTime (requestedSizeOf size env)) (fun i => env.probes (i + 1)) 8 0
          = (pollTrace (requestedSizeOf size env)
              (baseWaitTime (requestedSizeOf size env)) 0 k,
             .processing ⌊baseWaitTime (requestedSizeOf size env) * (3 / 2 : ℚ) ^ 7 / 1000⌋) :=
        Prod.ext_iff.mpr ⟨htr, ho⟩
      rw [hpair] at hGAP
      rw [hGAP]
      simp [hek]
  · intro w
    rw [wait_mem_pollTrace]
    exact exists_congr fun i => by simp [waitSeq]
  · intro i hi
    have h := hfails i (by omega)
    simpa using h
  · rcases hlast with ⟨hpt, _⟩ | ⟨h8, hall, _⟩
    · left
      have h := hpt
      simp only [] at h
      rwa [(by omega : 0 + k - 1 + 1 = k)] at h
    · right
      refine ⟨by omega, fun i h1 h8' => ?_⟩
      have h := hall (i - 1) (by omega)
      simp only [] at h
      rwa [(by omega : 0 + (i - 1) + 1 = i)] at h
  · exact ⟨fun _ => 1, fun i => by norm_num, fun i => by simp [waitSeq]⟩

/-- The environment of a run in which no probe ever succeeds (and every other
call goes through); it offers no available sizes, so `fullsize` negotiation
falls back to `"2560"`. -/
def envAllFail : RenditionEnv := ⟨true, true, [], fun _ => false, true, true⟩

/-- C1 witness: a `"fullsize"` request in which all probes fail. -/
theorem c1_polling_protocol_witness :
    ∃ k, 1 ≤ k ∧ k ≤ 8 ∧
      (getAssetPreview "fullsize" envAllFail).2
        = preTraceOf "fullsize"
            ++ Ev.probe (requestedSizeOf "fullsize" envAllFail)
            :: Ev.generate (requestedSizeOf "fullsize" envAllFail)
            :: (pollTrace (requestedSizeOf "fullsize" envAllFail)
                  (baseWaitTime (requestedSizeOf "fullsize" envAllFail)) 0 k
                ++ if envAllFail.probes k then
                    [Ev.fetchRendition (requestedSizeOf "fullsize" envAllFail)] else []) ∧
      (∀ w : ℚ, Ev.wait w ∈ pollTrace (requestedSizeOf "fullsize" envAllFail)
            (baseWaitTime (requestedSizeOf "fullsize" envAllFail)) 0 k ↔
        ∃ i, i < k ∧ w = waitSeq (requestedSizeOf "fullsize" envAllFail) i) ∧
      (∀ i, i + 1 < k → envAllFail.probes (i + 1) = false) ∧
      (envAllFail.probes k = true ∨
        (k = 8 ∧ ∀ i, 1 ≤ i → i ≤ 8 → envAllFail.probes i = false)) ∧
      StrictMono (waitSeq (requestedSizeOf "fullsize" envAllFail)) ∧
      ∃ jit : ℕ → ℚ, (∀ i, 1 ≤ jit i ∧ jit i ≤ 12 / 10) ∧
        ∀ i, waitSeq (requestedSizeOf "fullsize" envAllFail) i
          = baseWaitTime (requestedSizeOf "fullsize" envAllFail) * (3 / 2 : ℚ) ^ i * jit i :=
  c1_polling_protocol "fullsize" envAllFail rfl rfl rfl rfl

/-- C2.  For any rendition request (any size) in which the rendition never
becomes ready — the initial probe and all 8 polling probes fail — and the
generation trigger succeeds, `getAssetPreview` returns the 202 processing
result (not a thrown error) with a strictly positive `retryAfter`. -/
theorem c2_processing_after_exhaustion (size : String) (env : RenditionEnv)
    (ht : env.hasToken = true) (hk : env.hasApiKey = true)
    (hp : ∀ i, i ≤ 8 → env.probes i = false) (hg : env.genOk = true) :
    ∃ r : ℤ, (getAssetPreview size env).1 = .processing 202 r ∧ 0 < r := by
  rcases eq_or_ne size "fullsize" with hsz | hsz
  · subst hsz
    have hall := pollAux_all_false (selectFullsize env.availableSizes)
        (baseWaitTime (selectFullsize env.availableSizes))
        (fun i => env.probes (i + 1)) (fun i hi => hp (i + 1) (by omega))
    refine ⟨⌊baseWaitTime (selectFullsize env.availableSizes) * (3 / 2 : ℚ) ^ 7 / 1000⌋,
      ?_, retryAfter_pos _⟩
    simp [getAssetPreview, ht, hk, hp 0 (by omega), hg, hall]
  · have hall := pollAux_all_false size (baseWaitTime size)
        (fun i => env.probes (i + 1)) (fun i hi => hp (i + 1) (by omega))
    refine ⟨⌊baseWaitTime size * (3 / 2 : ℚ) ^ 7 / 1000⌋, ?_, retryAfter_pos _⟩
    simp [getAssetPreview, ht, hk, hsz, hp 0 (by omega), hg, hall]

/-- C2 witness: the `"2560"` all-probes-fail run. -/
theorem c2_processing_after_exhaustion_witness :
    ∃ r : ℤ, (getAssetPreview "2560" envAllFail).1 = .processing 202 r ∧ 0 < r :=
  c2_processing_after_exhaustion "2560" envAllFail rfl rfl (fun _ _ => rfl) rfl

/-! ## Claims about the largest-available-size selection -/

/-- `Math.max(x, ...xs)` is attained by one of its arguments and dominates
all of them. -/
theorem mathMax_spec (xs : List ℤ) : ∀ x,
    (mathMax x xs = x ∨ mathMax x xs ∈ xs) ∧
    x ≤ mathMax x xs ∧ ∀ y ∈ xs, y ≤ mathMax x xs := by
  induction xs with
  | nil => intro x; simp [mathMax]
  | cons a l ih =>
    intro x
    have h := ih (max x a)
    have hunfold : mathMax x (a :: l) = mathMax (max x a) l := rfl
    refine ⟨?_, ?_, ?_⟩
    · rcases h.1 with h1 | h1
      · rcases max_choice x a with hc | hc
        · left; rw [hunfold, h1, hc]
        · right; rw [hunfold, h1, hc]; exact List.mem_cons_self a l
      · right; rw [hunfold]; exact List.mem_cons_of_mem a h1
    · rw [hunfold]; exact le_trans (le_max_left x a) h.2.1
    · intro y hy
      rcases List.mem_cons.mp hy with hy | hy
      · subst hy; rw [hunfold]; exact le_trans (le_max_right x y) h.2.1
      · rw [hunfold]; exact h.2.2 y hy

/-- C7 counterexample.  On an availability list with no numeric size, the
code does not try the fallback sizes in list order (which would select the
first, `"lowq"`): it selects the *last* element. -/
theorem c7_fallback_counterexample :
    (parseIntJS "lowq" = none ∧ parseIntJS "highq" = none) ∧
    selectFullsize ["lowq", "highq"] = "highq" ∧ "highq" ≠ "lowq" := by
  refine ⟨⟨by decide, by decide⟩, by decide, by decide⟩

/-- C7 as amended.  Whenever at least one available size parses as a number,
the selection returns the decimal string of a parsed value that is attained
and numerically dominates every parsed value (in particular
`["640","1280","2048"]` yields `"2048"`); when no size parses as a number,
the selection returns the *last* size of the list (or `"2560"` when the list
is empty or ends with the empty string), not the first in list order. -/
theorem c7_largest_numeric_selection :
    (∀ (l : List String) (v0 : ℤ), v0 ∈ l.filterMap parseIntJS →
      ∃ v : ℤ, v ∈ l.filterMap parseIntJS ∧
        (∀ w ∈ l.filterMap parseIntJS, w ≤ v) ∧
        selectFullsize l = toString v) ∧
    selectFullsize ["640", "1280", "2048"] = "2048" ∧
    (∀ (l : List String) (s : String), l.filterMap parseIntJS = [] →
      l.getLast? = some s → s ≠ "" → selectFullsize l = s) := by
  refine ⟨?_, by decide, ?_⟩
  · intro l v0 hv0
    rcases hnum : l.filterMap parseIntJS with _ | ⟨n, rest⟩
    · rw [hnum] at hv0; simp at hv0
    · have h := mathMax_spec rest n
      refine ⟨mathMax n rest, ?_, ?_, ?_⟩
      · rcases h.1 with h1 | h1
        · rw [h1]; exact List.mem_cons_self n rest
        · exact List.mem_cons_of_mem n h1
      · intro w hw
        rcases List.mem_cons.mp hw with hw | hw
        · subst hw; exact h.2.1
        · exact h.2.2 w hw
      · simp [selectFullsize, hnum]
  · intro l s hnone hlast hs
    simp [selectFullsize, hnone, hlast, hs]

/-- C7 witness for the amended claim: the numeric case on
`["640","1280","2048"]` and the no-numeric case selecting the last element. -/
theorem c7_largest_numeric_selection_witness :
    (∃ v : ℤ, v ∈ (["640", "1280", "2048"] : List String).filterMap parseIntJS ∧
      (∀ w ∈ (["640", "1280", "2048"] : List String).filterMap parseIntJS, w ≤ v) ∧
      selectFullsize ["640", "1280", "2048"] = toString v) ∧
    selectFullsize ["thumbnail2x", "fullsize"] = "fullsize" :=
  ⟨c7_largest_numeric_selection.1 ["640", "1280", "2048"] 640 (by decide),
   c7_largest_numeric_selection.2.2 ["thumbnail2x", "fullsize"] "fullsize"
     (by decide) (by decide) (by decide)⟩

/-! ## The `request` helper's body handling (`src/lib/lightroom.ts`)

`request` reads the response text, strips a leading `while (1) {}`
anti-hijacking marker (then `.trim()`s the remainder), and runs `JSON.parse`,
throwing `Invalid JSON response from Lightroom API` when parsing fails.
`JSON.parse` is modelled by an executable parser of the JSON grammar
(`ws value ws`, with objects, arrays, strings with escapes, numbers with
fraction and exponent, and the four JSON whitespace characters; the model
reads exact ℚ numbers where JS reads doubles, and sticks to the four JSON
whitespace characters for the surrounding-`trim` behaviour). -/

/-- JSON whitespace. -/
def isWsJson (c : Char) : Bool := c = ' ' || c = '\t' || c = '\n' || c = '\r'

/-- Drop whitespace from both ends of a character list (the model of
`String.prototype.trim` on the characters the modelled bodies contain). -/
def trimChars (l : List Char) : List Char :=
  ((l.dropWhile isWsJson).reverse.dropWhile isWsJson).reverse

/-- `.trim()` on strings. -/
def jsTrim (s : String) : String := String.mk (trimChars s.data)

/-- Parsed JSON values. -/
inductive JsonValue where
  | nullV
  | boolV (b : Bool)
  | numV (q : ℚ)
  | strV (s : String)
  | arrV (elems : List JsonValue)
  | objV (fields : List (String × JsonValue))

/-- Unescaped value of a single-character JSON string escape. -/
def escChar (c : Char) : Option Char :=
  match c with
  | '"' => some '"'
  | '\\' => some '\\'
  | '/' => some '/'
  | 'b' => some '\x08'
  | 'f' => some '\x0c'
  | 'n' => some '\n'
  | 'r' => some '\r'
  | 't' => some '\t'
  | _ => none

/-- Parse the remainder of a JSON string literal (the opening quote already
consumed): plain characters above U+001F, the eight short escapes, and
`\uXXXX` (code points outside Lean's scalar values collapse to `'\0'`,
an acceptable coarsening for the bodies at hand). -/
def parseStringLit : ℕ → List Char → Option (List Char × List Char)
  | 0, _ => none
  | _ + 1, [] => none
  | f + 1, c :: rest =>
      if c = '"' then some ([], rest)
      else if c = '\\' then
        match rest with
        | 'u' :: h1 :: h2 :: h3 :: h4 :: rest2 =>
            match hexVal h1, hexVal h2, hexVal h3, hexVal h4 with
            | some a, some b, some d, some e =>
                (parseStringLit f rest2).map fun p =>
                  (Char.ofNat (((a * 16 + b) * 16 + d) * 16 + e) :: p.1, p.2)
            | _, _, _, _ => none
        | e :: rest2 =>
            match escChar e with
            | some ec => (parseStringLit f rest2).map fun p => (ec :: p.1, p.2)
            | none => none
        | [] => none
      else if c.toNat < 32 then none
      else (parseStringLit f rest).map fun p => (c :: p.1, p.2)

/-- Value of a JSON number from its integer digits, fraction digits and
exponent: `digits(ids ++ fds) * 10^(ex - |fds|)`, negated under a minus
sign.  (The power of ten is applied through ℕ powers so that the definition
evaluates by kernel reduction.) -/
def numValue (neg : Bool) (ids fds : List Char) (ex : ℤ) : ℚ :=
  let m : ℚ := (digitsToNat (ids ++ fds) : ℕ)
  let e : ℤ := ex - fds.length
  let q := if 0 ≤ e then m * ((10 ^ e.toNat : ℕ) : ℚ) else m / ((10 ^ (-e).toNat : ℕ) : ℚ)
  if neg then -q else q

/-- Parse an exponent part (after `e`/`E`): optional sign then digits. -/
def finishExp (neg : Bool) (ids fds : List Char) (cs : List Char) :
    Option (ℚ × List Char) :=
  let (esgn, cs1) : ℤ × List Char :=
    match cs with
    | '+' :: r => (1, r)
    | '-' :: r => (-1, r)
    | _ => (1, cs)
  let eds := cs1.takeWhile isDigitCh
  if eds = [] then none
  else some (numValue neg ids fds (esgn * (digitsToNat eds : ℤ)), cs1.dropWhile isDigitCh)

/-- Parse an optional exponent after the integer/fraction digits. -/
def finishNumber (neg : Bool) (ids fds : List Char) (cs : List Char) :
    Option (ℚ × List Char) :=
  match cs with
  | 'e' :: r => finishExp neg ids fds r
  | 'E' :: r => finishExp neg ids fds r
  | _ => some (numValue neg ids fds 0, cs)

/-- Parse a JSON number: optional minus, integer digits with no leading
zero, optional fraction, optional exponent. -/
def parseNumber (cs : List Char) : Option (ℚ × List Char) :=
  let (neg, cs1) : Bool × List Char :=
    match cs with
    | '-' :: r => (true, r)
    | _ => (false, cs)
  let ids := cs1.takeWhile isDigitCh
  let cs2 := cs1.dropWhile isDigitCh
  if ids = [] then none
  else if 1 < ids.length ∧ ids.head? = some '0' then none
  else
    match cs2 with
    | '.' :: r =>
        let fds := r.takeWhile isDigitCh
        if fds = [] then none
        else finishNumber neg ids fds (r.dropWhile isDigitCh)
    | _ => finishNumber neg ids [] cs2

mutual

/-- Parse a JSON value after skipping leading whitespace.  Fuel decreases on
every recursive call; `jsonParse` supplies more fuel than any input can
consume. -/
def parseValue : ℕ → List Char → Option (JsonValue × List Char)
  | 0, _ => none
  | f + 1, cs =>
      match cs.dropWhile isWsJson with
      | 'n' :: 'u' :: 'l' :: 'l' :: rest => some (.nullV, rest)
      | 't' :: 'r' :: 'u' :: 'e' :: rest => some (.boolV true, rest)
      | 'f' :: 'a' :: 'l' :: 's' :: 'e' :: rest => some (.boolV false, rest)
      | '"' :: rest =>
          (parseStringLit (f + 1) rest).map fun p => (.strV (String.mk p.1), p.2)
      | '[' :: rest =>
          (match rest.dropWhile isWsJson with
           | ']' :: rest2 => some (.arrV [], rest2)
           | _ => (parseElems f rest).map fun p => (.arrV p.1, p.2))
      | '\x7b' :: rest =>
          (match rest.dropWhile isWsJson with
           | '\x7d' :: rest2 => some (.objV [], rest2)
           | _ => (parseMembers f rest).map fun p => (.objV p.1, p.2))
      | cs1 => (parseNumber cs1).map fun p => (.numV p.1, p.2)

/-- Parse the non-empty element list of a JSON array, up to and including the
closing bracket. -/
def parseElems : ℕ → List Char → Option (List JsonValue × List Char)
  | 0, _ => none
  | f + 1, cs =>
      match parseValue f cs with
      | none => none
      | some (v, r) =>
          match r.dropWhile isWsJson with
          | ',' :: r2 => (parseElems f r2).map fun p => (v :: p.1, p.2)
          | ']' :: r2 => some ([v], r2)
          | _ => none

/-- Parse the non-empty member list of a JSON object, up to and including the
closing brace. -/
def parseMembers : ℕ → List Char → Option (List (String × JsonValue) × List Char)
  | 0, _ => none
  | f + 1, cs =>
      match cs.dropWhile isWsJson with
      | '"' :: rest =>
          (match parseStringLit (f + 1) rest with
           | none => none
           | some (key, r) =>
              match r.dropWhile isWsJson with
              | ':' :: r2 =>
                  (match parseValue f r2 with
                   | none => none
                   | some (v, r3) =>
                      match r3.dropWhile isWsJson with
                      | ',' :: r4 =>
                          (parseMembers f r4).map fun p =>
                            ((String.mk key, v) :: p.1, p.2)
                      | '\x7d' :: r4 => some ([(String.mk key, v)], r4)
                      | _ => none)
              | _ => none)
      | _ => none

end

/-- Model of `JSON.parse`: the grammar `ws value ws`, realised by trimming
both ends and requiring the parse to consume everything but whitespace. -/
def jsonParse (s : String) : Option JsonValue :=
  match parseValue (2 * (trimChars s.data).length + 1) (trimChars s.data) with
  | some (v, rest) => if rest.all isWsJson then some v else none
  | none => none

/-- Dropping a satisfying prefix is idempotent. -/
theorem dropWhile_twice (p : Char → Bool) (l : List Char) :
    (l.dropWhile p).dropWhile p = l.dropWhile p := by
  induction l with
  | nil => rfl
  | cons a t ih =>
    by_cases hp : p a
    · rw [List.dropWhile_cons_of_pos hp]; exact ih
    · rw [List.dropWhile_cons_of_neg hp, List.dropWhile_cons_of_neg hp]

/-- The head surviving a `dropWhile` falsifies the predicate. -/
theorem head?_dropWhile_false (p : Char → Bool) (l : List Char) (c : Char)
    (h : (l.dropWhile p).head? = some c) : p c = false := by
  induction l with
  | nil => simp [List.dropWhile] at h
  | cons a t ih =>
    by_cases hp : p a
    · rw [List.dropWhile_cons_of_pos hp] at h; exact ih h
    · rw [List.dropWhile_cons_of_neg hp, List.head?_cons] at h
      cases h
      exact Bool.not_eq_true _ ▸ eq_false_of_ne_true hp

/-- `dropWhile` keeps the last element of a list it does not empty. -/
theorem getLast?_dropWhile (p : Char → Bool) (l : List Char)
    (h : l.dropWhile p ≠ []) : (l.dropWhile p).getLast? = l.getLast? := by
  induction l with
  | nil => exact absurd rfl h
  | cons a t ih =>
    by_cases hp : p a
    · rw [List.dropWhile_cons_of_pos hp] at h ⊢
      have htne : t ≠ [] := by
        rintro rfl
        exact h rfl
      rw [ih h]
      rcases t with _ | ⟨b, t1⟩
      · exact absurd rfl htne
      · rw [List.getLast?_cons_cons]
    · rw [List.dropWhile_cons_of_neg hp]

/-- Trimming both ends is idempotent. -/
theorem trimChars_idem (l : List Char) : trimChars (trimChars l) = trimChars l := by
  unfold trimChars
  set u := l.dropWhile isWsJson with hu
  set v := u.reverse.dropWhile isWsJson with hv
  have h1 : v.reverse.dropWhile isWsJson = v.reverse := by
    rcases hh : v.reverse.head? with _ | c
    · rw [List.head?_eq_none_iff] at hh
      rw [hh]
      rfl
    · have hc : isWsJson c = false := by
        have hvne : v ≠ [] := by
          rintro hv0
          rw [hv0] at hh
          simp at hh
        have hgl : v.getLast? = some c := by rw [← List.head?_reverse]; exact hh
        have h2 : v.getLast? = u.reverse.getLast? := by
          rw [hv]
          exact getLast?_dropWhile _ _ (by rw [← hv]; exact hvne)
        have h3 : u.reverse.getLast? = u.head? := by
          rw [← List.head?_reverse, List.reverse_reverse]
        have h4 : u.head? = some c := by rw [← h3, ← h2, hgl]
        exact head?_dropWhile_false isWsJson l c (hu ▸ h4)
      rcases hrv : v.reverse with _ | ⟨d, rest⟩
      · rfl
      · have hdc : d = c := by
          rw [hrv, List.head?_cons] at hh
          exact Option.some.inj hh
        rw [List.dropWhile_cons_of_neg]
        rw [hdc, hc]
        simp
  rw [h1, List.reverse_reverse, hv, dropWhile_twice]

/-- The anti-hijacking marker stripped by `request`
(`while (1) {}` in the source). -/
def hijackMarker : String := "while (1) \x7b\x7d"

/-- Model of `responseText.startsWith(marker)` (character-wise; the marker is
ASCII so character and UTF-16 indexing agree). -/
def strStartsWith (s p : String) : Bool := s.data.take p.data.length == p.data

/-- Model of `responseText.substring(n)`. -/
def strDrop (s : String) (n : ℕ) : String := String.mk (s.data.drop n)

/-- The body preprocessing of `request`: strip the marker if present and
`.trim()` the remainder. -/
def stripHijackMarker (body : String) : String :=
  if strStartsWith body hijackMarker then
    jsTrim (strDrop body hijackMarker.data.length)
  else body

/-- The JSON step of `request`: parse the preprocessed body, or throw the
malformed-response error. -/
def parseResponseBody (body : String) : Except String JsonValue :=
  match jsonParse (stripHijackMarker body) with
  | some v => .ok v
  | none => .error "Invalid JSON response from Lightroom API"

/-- C8.  For every body consisting of the anti-hijacking marker followed by
valid JSON, `request`'s preprocessing strips the marker and surrounding
whitespace and parsing succeeds with the same value as parsing the suffix
directly; and every body that is not valid JSON after the stripping raises
the malformed-response error. -/
theorem c8_hijack_strip (j : String) (v : JsonValue) (h : jsonParse j = some v) :
    parseResponseBody (hijackMarker ++ j) = .ok v ∧
    ∀ body : String, jsonParse (stripHijackMarker body) = none →
      parseResponseBody body = .error "Invalid JSON response from Lightroom API" := by
  constructor
  · have hsw : strStartsWith (hijackMarker ++ j) hijackMarker = true := by
      simp [strStartsWith, String.data_append, List.take_left]
    have hdr : strDrop (hijackMarker ++ j) hijackMarker.data.length = j := by
      simp only [strDrop, String.data_append, List.drop_left]
    have htrim : jsonParse (jsTrim j) = some v := by
      have hdata : (jsTrim j).data = trimChars j.data := rfl
      unfold jsonParse
      rw [hdata, trimChars_idem]
      exact h
    have hdr2 : strDrop (hijackMarker ++ j) hijackMarker.length = j := hdr
    simp [parseResponseBody, stripHijackMarker, hsw, hdr2, htrim]
  · intro body hb
    simp [parseResponseBody, hb]

/-- C8 witness: the marker followed by `[true, null, "ok"]`. -/
theorem c8_hijack_strip_witness :
    jsonParse "[true, null, \"ok\"]"
      = some (.arrV [.boolV true, .nullV, .strV "ok"]) ∧
    (parseResponseBody (hijackMarker ++ "[true, null, \"ok\"]")
        = .ok (.arrV [.boolV true, .nullV, .strV "ok"]) ∧
      ∀ body : String, jsonParse (stripHijackMarker body) = none →
        parseResponseBody body = .error "Invalid JSON response from Lightroom API") :=
  ⟨rfl, c8_hijack_strip "[true, null, \"ok\"]" (.arrV [.boolV true, .nullV, .strV "ok"]) rfl⟩
